import Mathlib

/-!
Shallow embedding of the Monte-Carlo pi estimator of `calculating_pi.py`
and `calculating_pi_mpi.py`.

The numpy pseudo-random generator is modelled by an abstract stream
`u : ℤ → ℕ → ℚ`: `u seed k` is the k-th uniform float produced after
`np.random.seed(seed)`.  The process-global generator state is the pair
(current seed, number of floats drawn since seeding).  Python floats are
modelled by exact rationals; Python `//` and `%` on ints are `Int.fdiv`
and `Int.fmod` (floor convention).  Calls that raise in Python
(`ZeroDivisionError`, `np.zeros` of a negative size) evaluate to `none`.
-/

/-- Process-global state of numpy's random generator: the seed it was last
seeded with and how many uniform floats have been drawn since. -/
structure RngState where
  seed : ℤ
  pos : ℕ
deriving DecidableEq

/-- Model of `np.random.rand(2)` (and of two successive `np.random.rand()`
calls): two uniform floats and the advanced generator state. -/
def npRand2 (u : ℤ → ℕ → ℚ) (g : RngState) : (ℚ × ℚ) × RngState :=
  ((u g.seed g.pos, u g.seed (g.pos + 1)), RngState.mk g.seed (g.pos + 2))

/-- The j-th 2D point drawn after seeding: floats number 2j and 2j+1. -/
def drawPair (u : ℤ → ℕ → ℚ) (seed : ℤ) (j : ℕ) : ℚ × ℚ :=
  (u seed (2 * j), u seed (2 * j + 1))

/-- Inside test of `calc_pi` (calculating_pi.py line 102): `x**2 + y**2 < 1`. -/
def sqTest (p : ℚ × ℚ) : Bool := decide (p.1 ^ 2 + p.2 ^ 2 < 1)

/-- Inside test of `calc_pi_serial` (calculating_pi.py line 42):
`np.linalg.norm(np.random.rand(2)) < 1`, read in exact arithmetic. -/
def normTestProp (p : ℚ × ℚ) : Prop :=
  Real.sqrt ((p.1 : ℝ) ^ 2 + (p.2 : ℝ) ^ 2) < 1

instance normTestDecidable : DecidablePred normTestProp := fun p =>
  decidable_of_iff (p.1 ^ 2 + p.2 ^ 2 < 1) (by
    unfold normTestProp
    rw [Real.sqrt_lt' one_pos, one_pow]
    constructor <;> intro h <;> exact_mod_cast h)

/-- Bool form of the norm test, as branched on in the serial loop. -/
def normTest (p : ℚ × ℚ) : Bool := decide (normTestProp p)

/-- Local loop state of the checkpointed estimators: running inside count,
checkpoint array, and number of checkpoints stored so far. -/
structure PiState where
  num_in_circle : ℕ
  pi_values : List ℚ
  num_pi_stored : ℕ
deriving DecidableEq

/-- Body of iteration i (calculating_pi.py lines 39-51 resp. 91-111):
classify the drawn point, and when i is an exact multiple of the
collection rate store `4 * num_in_circle / i` at index `num_pi_stored`. -/
def piStep (test : ℚ × ℚ → Bool) (rate : ℤ) (p : ℚ × ℚ) (i : ℕ) (s : PiState) : PiState :=
  let c := if test p then s.num_in_circle + 1 else s.num_in_circle
  if (i : ℤ).fmod rate = 0 then
    PiState.mk c (s.pi_values.set s.num_pi_stored (4 * (c : ℚ) / (i : ℚ))) (s.num_pi_stored + 1)
  else
    PiState.mk c s.pi_values s.num_pi_stored

/-- One iteration including the draw from the global generator. -/
def loopStep (test : ℚ × ℚ → Bool) (u : ℤ → ℕ → ℚ) (rate : ℤ)
    (sg : PiState × RngState) (i : ℕ) : PiState × RngState :=
  (piStep test rate (npRand2 u sg.2).1 i sg.1, (npRand2 u sg.2).2)

/-- The sampling loop `for i in range(1, int(num_samples)+1)`. -/
def piLoop (test : ℚ × ℚ → Bool) (u : ℤ → ℕ → ℚ) (rate : ℤ)
    (l : List ℕ) (sg : PiState × RngState) : PiState × RngState :=
  l.foldl (loopStep test u rate) sg

/-- Common shape of `calc_pi_serial` and `calc_pi` in calculating_pi.py,
differing only in the inside test.  The incoming global generator state
`g0` is overwritten by `np.random.seed(seed)` before anything else.
`none` models a Python exception: `num_samples // rate` with `rate = 0`,
`np.zeros` of a negative size, or the final division by `num_samples = 0`. -/
def piProgram (test : ℚ × ℚ → Bool) (u : ℤ → ℕ → ℚ)
    (num_samples seed rate : ℤ) (g0 : RngState) :
    Option ((ℚ × List ℚ) × RngState) :=
  let g1 := RngState.mk seed 0
  if rate = 0 then none
  else if num_samples.fdiv rate < 0 then none
  else
    let s0 := PiState.mk 0 (List.replicate (num_samples.fdiv rate).toNat 0) 0
    let sg := piLoop test u rate (List.range' 1 num_samples.toNat) (s0, g1)
    if num_samples = 0 then none
    else some ((4 * (sg.1.num_in_circle : ℚ) / (num_samples : ℚ), sg.1.pi_values), sg.2)

/-- Embedding of `calc_pi_serial` (calculating_pi.py lines 27-57): the
norm inside test. -/
def calc_pi_serial (u : ℤ → ℕ → ℚ) (num_samples seed rate : ℤ) (g0 : RngState) :
    Option ((ℚ × List ℚ) × RngState) :=
  piProgram normTest u num_samples seed rate g0

/-- Embedding of `calc_pi` (calculating_pi.py lines 78-117): the
sum-of-squares inside test; the njit annotation has no semantic content. -/
def calc_pi (u : ℤ → ℕ → ℚ) (num_samples seed rate : ℤ) (g0 : RngState) :
    Option ((ℚ × List ℚ) × RngState) :=
  piProgram sqTest u num_samples seed rate g0

/-- Number of the first m sample points accepted by a given inside test. -/
def countT (test : ℚ × ℚ → Bool) (u : ℤ → ℕ → ℚ) (seed : ℤ) (m : ℕ) : ℕ :=
  (List.range m).countP (fun j => test (drawPair u seed j))

/-- Inside count after the first m samples, with the spec's classifier
`x² + y² < 1`. -/
def insideCount (u : ℤ → ℕ → ℚ) (seed : ℤ) (m : ℕ) : ℕ :=
  countT sqTest u seed m

/-- Value of the checkpoint taken after j samples: `4 * inside_count / j`. -/
def ckValT (test : ℚ × ℚ → Bool) (u : ℤ → ℕ → ℚ) (seed : ℤ) (j : ℕ) : ℚ :=
  4 * (countT test u seed j : ℚ) / (j : ℚ)

/-- Checkpoint array of capacity cap with collection rate r after d
checkpoints have been stored: entry t holds the checkpoint taken after
(t+1)*r samples once t < d, and the `np.zeros` fill 0 before that. -/
def ckListD (test : ℚ × ℚ → Bool) (u : ℤ → ℕ → ℚ) (seed : ℤ) (r cap d : ℕ) : List ℚ :=
  (List.range cap).map (fun t => if t + 1 ≤ d then ckValT test u seed ((t + 1) * r) else 0)

/-- Share of the samples assigned to a rank (calculating_pi_mpi.py lines
62-67): `num_samples // size`, plus the remainder for rank 0 only. -/
def samplesFor (num_samples size rank : ℤ) : ℤ :=
  if rank = 0 then num_samples.fdiv size + num_samples.fmod size
  else num_samples.fdiv size

/-- Inside count produced by one rank of the MPI variant: the rank reseeds
with `seed + rank` and loops over its own share with the norm test
(calculating_pi_mpi.py lines 70-79). -/
def workerInside (u : ℤ → ℕ → ℚ) (num_samples seed size rank : ℤ) : ℕ :=
  countT normTest u (seed + rank) (samplesFor num_samples size rank).toNat

/-- Sum-reduction of the per-rank counts: the `comm.reduce(..., MPI.SUM)`
of calculating_pi_mpi.py line 82, received on rank 0. -/
def totalInside (u : ℤ → ℕ → ℚ) (num_samples seed size : ℤ) : ℕ :=
  ((List.range size.toNat).map (fun r : ℕ => workerInside u num_samples seed size (r : ℤ))).sum

/-- Embedding of `calc_pi` from calculating_pi_mpi.py (lines 40-90), seen
from one rank of a size-process run: rank 0 receives the reduced total and
returns the estimate, every other rank returns None. -/
def calc_pi_mpi (u : ℤ → ℕ → ℚ) (num_samples seed size rank : ℤ) : Option ℚ :=
  if size = 0 then none
  else if rank = 0 then
    if num_samples = 0 then none
    else some (4 * (totalInside u num_samples seed size : ℚ) / (num_samples : ℚ))
  else none

/-- Embedding of `display_difference` (calculating_pi.py lines 124-128):
the pair of values it prints, the difference `new_value - original_value`
and the percentage `(new_value - original_value) / original_value`; the
percentage is `none` where Python would raise on `original_value = 0`. -/
def display_difference (original_value new_value : ℚ) : ℚ × Option ℚ :=
  (new_value - original_value,
   if original_value = 0 then none
   else some ((new_value - original_value) / original_value))

/-- Blocks of `output_results` (calculating_pi.py lines 175-183) comparing
a checkpoint with its predecessor: for each index i ≥ 1 of pi_values the
loop calls `display_difference(pi_values[i], pi_values[i-1])`, i.e. the
current checkpoint is passed as original_value and the previous one as
new_value. -/
def prevDiffBlocks (pi_values : List ℚ) : List (ℚ × Option ℚ) :=
  (List.range' 1 (pi_values.length - 1)).map
    (fun i => display_difference (pi_values.getD i 0) (pi_values.getD (i - 1) 0))

/-- Concrete stream used to instantiate the theorems below: every float
drawn is 1/2, so every sampled point lies inside the quadrant. -/
def u0 : ℤ → ℕ → ℚ := fun _ _ => 1 / 2

lemma normTestProp_iff (p : ℚ × ℚ) : normTestProp p ↔ p.1 ^ 2 + p.2 ^ 2 < 1 := by
  unfold normTestProp
  rw [Real.sqrt_lt' one_pos, one_pow]
  constructor <;> intro h <;> exact_mod_cast h

lemma normTest_eq_sqTest : normTest = sqTest := by
  funext p
  simp only [normTest, sqTest, decide_eq_decide]
  exact normTestProp_iff p

lemma countT_zero (test : ℚ × ℚ → Bool) (u : ℤ → ℕ → ℚ) (seed : ℤ) :
    countT test u seed 0 = 0 := rfl

lemma countT_succ (test : ℚ × ℚ → Bool) (u : ℤ → ℕ → ℚ) (seed : ℤ) (m : ℕ) :
    countT test u seed (m + 1)
      = countT test u seed m + if test (drawPair u seed m) then 1 else 0 := by
  simp [countT, List.range_succ, List.countP_cons]

lemma ckListD_length (test : ℚ × ℚ → Bool) (u : ℤ → ℕ → ℚ) (seed : ℤ) (r cap d : ℕ) :
    (ckListD test u seed r cap d).length = cap := by
  simp [ckListD]

lemma ckListD_set (test : ℚ × ℚ → Bool) (u : ℤ → ℕ → ℚ) (seed : ℤ) (r cap d : ℕ) :
    (ckListD test u seed r cap d).set d (ckValT test u seed ((d + 1) * r))
      = ckListD test u seed r cap (d + 1) := by
  apply List.ext_getElem
  · simp [ckListD]
  · intro t h1 h2
    simp only [ckListD, List.getElem_set, List.getElem_map, List.getElem_range]
    by_cases hdt : d = t
    · subst hdt
      simp
    · rw [if_neg hdt]
      by_cases hle : t + 1 ≤ d
      · rw [if_pos hle, if_pos (by omega)]
      · rw [if_neg hle, if_neg (by omega)]

lemma fmod_cast_zero_iff (a : ℕ) (rate : ℤ) (h : 0 ≤ rate) :
    ((a : ℤ).fmod rate = 0) ↔ a % rate.toNat = 0 := by
  rw [Int.fmod_eq_emod _ h]
  conv_lhs => rw [show rate = ((rate.toNat : ℕ) : ℤ) from (Int.toNat_of_nonneg h).symm]
  rw [← Int.ofNat_emod]
  exact Int.natCast_eq_zero

lemma piLoop_spec (test : ℚ × ℚ → Bool) (u : ℤ → ℕ → ℚ) (seed : ℤ) (rate : ℤ)
    (hr : 1 ≤ rate) (cap : ℕ) (m : ℕ) :
    piLoop test u rate (List.range' 1 m)
      (PiState.mk 0 (List.replicate cap 0) 0, RngState.mk seed 0)
    = (PiState.mk (countT test u seed m)
        (ckListD test u seed rate.toNat cap (m / rate.toNat)) (m / rate.toNat),
       RngState.mk seed (2 * m)) := by
  induction m with
  | zero =>
      simp [piLoop, ckListD, countT_zero, List.map_const', Nat.zero_div]
  | succ m ih =>
      have hr0 : 0 < rate.toNat := by omega
      rw [List.range'_1_concat]
      simp only [piLoop] at ih ⊢
      rw [List.foldl_append, ih, List.foldl_cons, List.foldl_nil]
      have hpos : (1 : ℕ) + m = m + 1 := Nat.add_comm 1 m
      simp only [loopStep, npRand2, piStep]
      have hdraw : (u seed (2 * m), u seed (2 * m + 1)) = drawPair u seed m := rfl
      rw [hpos, hdraw]
      by_cases hdvd : (m + 1) % rate.toNat = 0
      · rw [if_pos ((fmod_cast_zero_iff (m + 1) rate (by omega)).mpr hdvd)]
        have hdv : rate.toNat ∣ m + 1 := Nat.dvd_of_mod_eq_zero hdvd
        have hsd : (m + 1) / rate.toNat = m / rate.toNat + 1 := Nat.succ_div_of_dvd hdv
        have hmul : (m / rate.toNat + 1) * rate.toNat = m + 1 := by
          rw [← hsd, Nat.div_mul_cancel hdv]
        have hc : (if test (drawPair u seed m) then countT test u seed m + 1
            else countT test u seed m) = countT test u seed (m + 1) := by
          rw [countT_succ]
          by_cases h : test (drawPair u seed m) <;> simp [h]
        rw [hc]
        have hval : (4 * (countT test u seed (m + 1) : ℚ) / ((m + 1 : ℕ) : ℚ))
            = ckValT test u seed ((m / rate.toNat + 1) * rate.toNat) := by
          rw [hmul, ckValT]
        rw [hval, ckListD_set, hsd, Nat.mul_succ]
      · rw [if_neg (fun hz => hdvd ((fmod_cast_zero_iff (m + 1) rate (by omega)).mp hz))]
        have hsd : (m + 1) / rate.toNat = m / rate.toNat :=
          Nat.succ_div_of_not_dvd (fun hdv => hdvd (Nat.dvd_iff_mod_eq_zero.mp hdv))
        have hc : (if test (drawPair u seed m) then countT test u seed m + 1
            else countT test u seed m) = countT test u seed (m + 1) := by
          rw [countT_succ]
          by_cases h : test (drawPair u seed m) <;> simp [h]
        rw [hc, hsd, Nat.mul_succ]

lemma piProgram_eq (test : ℚ × ℚ → Bool) (u : ℤ → ℕ → ℚ) (seed : ℤ) (g0 : RngState)
    (n rate : ℤ) (hn : 1 ≤ n) (hr : 1 ≤ rate) :
    piProgram test u n seed rate g0
      = some ((4 * (countT test u seed n.toNat : ℚ) / (n : ℚ),
               ckListD test u seed rate.toNat (n.toNat / rate.toNat) (n.toNat / rate.toNat)),
              RngState.mk seed (2 * n.toNat)) := by
  have hn0 : n = ((n.toNat : ℕ) : ℤ) := (Int.toNat_of_nonneg (by omega)).symm
  have hr0 : rate = ((rate.toNat : ℕ) : ℤ) := (Int.toNat_of_nonneg (by omega)).symm
  have hq : n.fdiv rate = ((n.toNat / rate.toNat : ℕ) : ℤ) := by
    rw [Int.fdiv_eq_ediv _ (by omega)]
    conv_lhs => rw [hn0, hr0]
    rw [← Int.ofNat_ediv]
  simp only [piProgram, hq]
  rw [if_neg (by omega), if_neg (not_lt.mpr (Int.natCast_nonneg _))]
  have hcap : ((n.toNat / rate.toNat : ℕ) : ℤ).toNat = n.toNat / rate.toNat := Int.toNat_natCast _
  rw [hcap, piLoop_spec test u seed rate hr]
  rw [if_neg (by omega)]

lemma sqTest_half : sqTest (1 / 2, 1 / 2) = true := by
  simp only [sqTest, decide_eq_true_eq]
  norm_num

lemma normTest_half : normTest (1 / 2, 1 / 2) = true := by
  rw [normTest_eq_sqTest]
  exact sqTest_half

lemma countT_u0 (test : ℚ × ℚ → Bool) (h : test (1 / 2, 1 / 2) = true)
    (seed : ℤ) (m : ℕ) : countT test u0 seed m = m := by
  rw [countT,
    (List.countP_eq_length (p := fun j => test (drawPair u0 seed j))).mpr (fun a _ => h),
    List.length_range]

lemma ckListD_get (test : ℚ × ℚ → Bool) (u : ℤ → ℕ → ℚ) (seed : ℤ)
    (r cap d k : ℕ) (hk : 1 ≤ k) (hkcap : k ≤ cap) (hkd : k ≤ d) :
    (ckListD test u seed r cap d)[k - 1]? = some (ckValT test u seed (k * r)) := by
  rw [ckListD, List.getElem?_map]
  rw [List.getElem?_range (by omega : k - 1 < cap)]
  have hk1 : k - 1 + 1 = k := by omega
  rw [Option.map_some']
  rw [if_pos (by omega), hk1]

/-- C1: for every valid config (num_samples ≥ 1, checkpoint_interval ≥ 1),
`calc_pi_serial` returns final_estimate = 4 × inside_count / num_samples,
and for every k ≥ 1 with k × checkpoint_interval ≤ num_samples the k-th
checkpoint equals 4 × (inside count after the first k × checkpoint_interval
samples) / (k × checkpoint_interval). -/
theorem calc_pi_final_and_checkpoints (u : ℤ → ℕ → ℚ) (seed : ℤ) (g0 : RngState)
    (n rate : ℤ) (k : ℕ) (hn : 1 ≤ n) (hr : 1 ≤ rate) :
    (calc_pi_serial u n seed rate g0).map (fun res => res.1.1)
        = some (4 * (insideCount u seed n.toNat : ℚ) / (n : ℚ))
    ∧ (1 ≤ k → (k : ℤ) * rate ≤ n →
        (calc_pi_serial u n seed rate g0).bind (fun res => res.1.2[k - 1]?)
          = some (4 * (insideCount u seed (k * rate.toNat) : ℚ)
                    / ((k * rate.toNat : ℕ) : ℚ))) := by
  rw [calc_pi_serial, piProgram_eq normTest u seed g0 n rate hn hr, normTest_eq_sqTest]
  constructor
  · rfl
  · intro hk hkr
    have hkn : k * rate.toNat ≤ n.toNat := by
      have h1 : ((k * rate.toNat : ℕ) : ℤ) ≤ n := by
        push_cast
        rw [Int.toNat_of_nonneg (by omega : (0 : ℤ) ≤ rate)]
        exact hkr
      omega
    have hkcap : k ≤ n.toNat / rate.toNat := (Nat.le_div_iff_mul_le (by omega)).mpr hkn
    show (ckListD sqTest u seed rate.toNat (n.toNat / rate.toNat)
        (n.toNat / rate.toNat))[k - 1]? = _
    rw [ckListD_get sqTest u seed rate.toNat _ _ k hk hkcap hkcap]
    rfl

/-- C1 witness at config num_samples 4, seed 0, checkpoint_interval 2, k = 2,
with the concrete all-inside stream u0. -/
theorem calc_pi_final_and_checkpoints_app :
    ((1 : ℤ) ≤ 4 ∧ (1 : ℤ) ≤ 2)
    ∧ ((calc_pi_serial u0 4 0 2 (RngState.mk 0 0)).map (fun res => res.1.1)
          = some (4 * (insideCount u0 0 (4 : ℤ).toNat : ℚ) / ((4 : ℤ) : ℚ))
      ∧ (1 ≤ (2 : ℕ) → ((2 : ℕ) : ℤ) * 2 ≤ 4 →
          (calc_pi_serial u0 4 0 2 (RngState.mk 0 0)).bind (fun res => res.1.2[2 - 1]?)
            = some (4 * (insideCount u0 0 (2 * (2 : ℤ).toNat) : ℚ)
                      / ((2 * (2 : ℤ).toNat : ℕ) : ℚ)))) :=
  ⟨⟨by norm_num, by norm_num⟩,
   calc_pi_final_and_checkpoints u0 0 (RngState.mk 0 0) 4 2 2
     (by norm_num) (by norm_num)⟩

/-- C2: the result of `calc_pi_serial` is a function of the config (stream,
num_samples, seed, checkpoint_interval) alone: it does not depend on the
pre-call state of the process-global generator, because
`np.random.seed(seed)` overwrites that state first, so two calls with an
identical config return identical results (estimate, checkpoint sequence,
and even post-call generator state). -/
theorem calc_pi_deterministic (u : ℤ → ℕ → ℚ) (n seed rate : ℤ) (g g' : RngState) :
    calc_pi_serial u n seed rate g = calc_pi_serial u n seed rate g' := rfl

/-- C3: for every valid config the number of checkpoints produced equals
num_samples // checkpoint_interval exactly. -/
theorem checkpoint_count_eq (u : ℤ → ℕ → ℚ) (seed : ℤ) (g0 : RngState)
    (n rate : ℤ) (hn : 1 ≤ n) (hr : 1 ≤ rate) :
    (calc_pi_serial u n seed rate g0).map (fun res => res.1.2.length)
      = some (n.toNat / rate.toNat) := by
  rw [calc_pi_serial, piProgram_eq normTest u seed g0 n rate hn hr]
  simp [ckListD_length]

/-- C3 witness at num_samples 10, checkpoint_interval 3: exactly 10 // 3 = 3
checkpoints. -/
theorem checkpoint_count_eq_app :
    ((1 : ℤ) ≤ 10 ∧ (1 : ℤ) ≤ 3)
    ∧ (calc_pi_serial u0 10 7 3 (RngState.mk 0 0)).map (fun res => res.1.2.length)
        = some ((10 : ℤ).toNat / (3 : ℤ).toNat) :=
  ⟨⟨by norm_num, by norm_num⟩,
   checkpoint_count_eq u0 7 (RngState.mk 0 0) 10 3 (by norm_num) (by norm_num)⟩

/-- C4 counterexample: the code performs no configuration validation.  At
the invalid config num_samples = -5 < 1, checkpoint_interval = -1000 < 1
the call does not reject with any error: it completes and returns a value. -/
theorem no_invalid_config_rejection_cex :
    (-5 : ℤ) < 1 ∧ (-1000 : ℤ) < 1
    ∧ (calc_pi_serial u0 (-5) 12345 (-1000) (RngState.mk 0 0)).isSome = true := by
  refine ⟨by norm_num, by norm_num, ?_⟩
  rfl

/-- C4 amended: the estimator performs no InvalidConfiguration check.  For
num_samples < 0 with checkpoint_interval < 0 the call completes normally
and returns a value (in Python, an estimate of -0.0 from an empty loop);
the only rejection-like behaviours on invalid configs are unstructured
arithmetic errors, e.g. checkpoint_interval = 0 raises ZeroDivisionError
(modelled as none) at the allocation `num_samples // rate`. -/
theorem invalid_config_no_error (u : ℤ → ℕ → ℚ) (seed : ℤ) (g0 : RngState)
    (n rate : ℤ) (hn : n < 0) (hr : rate < 0) :
    (calc_pi_serial u n seed rate g0).isSome = true
    ∧ calc_pi_serial u n seed 0 g0 = none := by
  constructor
  · have hq : 0 ≤ n.fdiv rate := by
      obtain ⟨a, rfl⟩ := Int.eq_negSucc_of_lt_zero hn
      obtain ⟨b, rfl⟩ := Int.eq_negSucc_of_lt_zero hr
      exact Int.ofNat_nonneg _
    have hN : n.toNat = 0 := by omega
    simp only [calc_pi_serial, piProgram, hN]
    rw [if_neg (by omega), if_neg (by omega), if_neg (by omega)]
    rfl
  · rfl

/-- C4 amended witness at num_samples -5, checkpoint_interval -1000. -/
theorem invalid_config_no_error_app :
    ((-5 : ℤ) < 0 ∧ (-1000 : ℤ) < 0)
    ∧ ((calc_pi_serial u0 (-5) 12345 (-1000) (RngState.mk 0 0)).isSome = true
       ∧ calc_pi_serial u0 (-5) 12345 0 (RngState.mk 0 0) = none) :=
  ⟨⟨by norm_num, by norm_num⟩,
   invalid_config_no_error u0 12345 (RngState.mk 0 0) (-5) (-1000)
     (by norm_num) (by norm_num)⟩

/-- C5: with worker_count ≥ 1, every rank k ≠ 0 is assigned exactly
num_samples // worker_count samples, rank 0 is assigned
num_samples // worker_count plus the whole remainder
num_samples mod worker_count, and the shares over all ranks sum to
num_samples. -/
theorem worker_share_split (n wc k : ℤ) (hn : 1 ≤ n) (hw : 1 ≤ wc) (hk : k ≠ 0) :
    samplesFor n wc k = n.fdiv wc
    ∧ samplesFor n wc 0 = n.fdiv wc + n.fmod wc
    ∧ ((List.range wc.toNat).map (fun r : ℕ => samplesFor n wc (r : ℤ))).sum = n := by
  refine ⟨by rw [samplesFor, if_neg hk], by rw [samplesFor, if_pos rfl], ?_⟩
  obtain ⟨w, hw'⟩ : ∃ w : ℕ, wc.toNat = w + 1 := ⟨wc.toNat - 1, by omega⟩
  have hwc : ((w + 1 : ℕ) : ℤ) = wc := by omega
  rw [hw', List.range_succ_eq_map, List.map_cons, List.map_map, List.sum_cons]
  have hrest : (List.range w).map ((fun r : ℕ => samplesFor n wc (r : ℤ)) ∘ Nat.succ)
      = List.replicate w (n.fdiv wc) := by
    have hfun : ∀ i ∈ List.range w,
        ((fun r : ℕ => samplesFor n wc (r : ℤ)) ∘ Nat.succ) i
          = (fun _ : ℕ => n.fdiv wc) i := by
      intro i _
      show samplesFor n wc ((Nat.succ i : ℕ) : ℤ) = n.fdiv wc
      rw [samplesFor, if_neg (by exact_mod_cast Nat.succ_ne_zero i)]
    rw [List.map_congr_left hfun, List.map_const', List.length_range]
  rw [hrest, List.sum_replicate, nsmul_eq_mul]
  rw [show samplesFor n wc ((0 : ℕ) : ℤ) = n.fdiv wc + n.fmod wc from by
    rw [samplesFor, if_pos (by norm_num)]]
  have hkey := Int.fdiv_add_fmod n wc
  have hwz : (w : ℤ) = wc - 1 := by omega
  rw [hwz]
  linear_combination hkey

/-- C5 witness at num_samples 10, worker_count 4, rank 3: ranks 1-3 get 2
samples each, rank 0 gets 2 + 2, and the shares sum to 10. -/
theorem worker_share_split_app :
    ((1 : ℤ) ≤ 10 ∧ (1 : ℤ) ≤ 4 ∧ (3 : ℤ) ≠ 0)
    ∧ (samplesFor 10 4 3 = (10 : ℤ).fdiv 4
      ∧ samplesFor 10 4 0 = (10 : ℤ).fdiv 4 + (10 : ℤ).fmod 4
      ∧ ((List.range (4 : ℤ).toNat).map (fun r : ℕ => samplesFor 10 4 (r : ℤ))).sum = 10) :=
  ⟨⟨by norm_num, by norm_num, by norm_num⟩,
   worker_share_split 10 4 3 (by norm_num) (by norm_num) (by norm_num)⟩

/-- C6: the coordinator (rank 0) returns
final_estimate = 4 × (sum of the per-worker inside counts) / num_samples;
the reduction is a sum and therefore independent of the order in which the
partials are combined (any permutation of the partials list has the same
sum); every non-coordinator rank returns none. -/
theorem mpi_reduce_result (u : ℤ → ℕ → ℚ) (n seed size rank : ℤ) (l : List ℕ)
    (hn : 1 ≤ n) (hs : 1 ≤ size) (hrank : rank ≠ 0)
    (hl : l.Perm ((List.range size.toNat).map (fun r : ℕ => workerInside u n seed size (r : ℤ)))) :
    calc_pi_mpi u n seed size 0
        = some (4 * ((((List.range size.toNat).map
              (fun r : ℕ => workerInside u n seed size (r : ℤ))).sum : ℕ) : ℚ) / (n : ℚ))
    ∧ calc_pi_mpi u n seed size rank = none
    ∧ l.sum = ((List.range size.toNat).map (fun r : ℕ => workerInside u n seed size (r : ℤ))).sum := by
  refine ⟨?_, ?_, hl.sum_eq⟩
  · rw [calc_pi_mpi, if_neg (by omega), if_pos rfl, if_neg (by omega)]
    rfl
  · rw [calc_pi_mpi, if_neg (by omega), if_neg hrank]

/-- C6 witness at num_samples 3, seed 0, 2 workers, rank 1, with the
all-inside stream u0: partials are [2, 1] (rank 0 taking the remainder),
the permuted list [1, 2] has the same sum, and rank 0 returns
4 * 3 / 3 while rank 1 returns none. -/
theorem mpi_reduce_result_app :
    ((1 : ℤ) ≤ 3 ∧ (1 : ℤ) ≤ 2 ∧ (1 : ℤ) ≠ 0
      ∧ [1, 2].Perm ((List.range (2 : ℤ).toNat).map (fun r : ℕ => workerInside u0 3 0 2 (r : ℤ))))
    ∧ (calc_pi_mpi u0 3 0 2 0
          = some (4 * ((((List.range (2 : ℤ).toNat).map
                (fun r : ℕ => workerInside u0 3 0 2 (r : ℤ))).sum : ℕ) : ℚ) / ((3 : ℤ) : ℚ))
      ∧ calc_pi_mpi u0 3 0 2 1 = none
      ∧ List.sum [1, 2]
          = ((List.range (2 : ℤ).toNat).map (fun r : ℕ => workerInside u0 3 0 2 (r : ℤ))).sum) := by
  have h0 : workerInside u0 3 0 2 ((0 : ℕ) : ℤ) = 2 := by
    rw [workerInside, countT_u0 normTest normTest_half]
    rfl
  have h1 : workerInside u0 3 0 2 ((1 : ℕ) : ℤ) = 1 := by
    rw [workerInside, countT_u0 normTest normTest_half]
    rfl
  have hmap : (List.range (2 : ℤ).toNat).map (fun r : ℕ => workerInside u0 3 0 2 (r : ℤ))
      = [2, 1] := by
    rw [show (2 : ℤ).toNat = 2 from rfl, show List.range 2 = [0, 1] from rfl]
    rw [List.map_cons, List.map_cons, List.map_nil, h0, h1]
  have hperm : [1, 2].Perm ((List.range (2 : ℤ).toNat).map (fun r : ℕ => workerInside u0 3 0 2 (r : ℤ))) := by
    rw [hmap]
    exact List.Perm.swap 2 1 []
  exact ⟨⟨by norm_num, by norm_num, by norm_num, hperm⟩,
    mpi_reduce_result u0 3 0 2 1 [1, 2] (by norm_num) (by norm_num) (by norm_num) hperm⟩

/-- C7: in exact arithmetic the norm test of `calc_pi_serial` and the
sum-of-squares test of `calc_pi` classify every point identically (both
strict, boundary outside); consequently, on the same draw stream the two
variants produce equal inside counts and equal results (estimate,
checkpoints and final generator state alike). -/
theorem norm_sq_test_equiv (p : ℚ × ℚ) (u : ℤ → ℕ → ℚ) (seed : ℤ) (m : ℕ)
    (n rate : ℤ) (g0 : RngState) :
    (normTestProp p ↔ p.1 ^ 2 + p.2 ^ 2 < 1)
    ∧ countT normTest u seed m = insideCount u seed m
    ∧ calc_pi_serial u n seed rate g0 = calc_pi u n seed rate g0 := by
  refine ⟨normTestProp_iff p, ?_, ?_⟩
  · rw [normTest_eq_sqTest]
    rfl
  · rw [calc_pi_serial, calc_pi, normTest_eq_sqTest]

/-- C9 counterexample: with previous checkpoint 3 and current checkpoint 4,
the block reports difference 3 - 4 = -1 with percentage (3 - 4) / 4, not
the claimed current-minus-previous difference 1 with percentage 1 / 3: the
arguments of display_difference are swapped at the call site. -/
theorem prev_diff_convention_cex :
    prevDiffBlocks [3, 4] ≠ [((4 : ℚ) - 3, some (((4 : ℚ) - 3) / 3))] := by
  have hval : prevDiffBlocks [3, 4] = [((-1 : ℚ), some (-(1 / 4) : ℚ))] := by
    norm_num [prevDiffBlocks, display_difference, List.range']
  rw [hval]
  intro h
  simp only [List.cons.injEq, Prod.mk.injEq] at h
  have := h.1.1
  norm_num at this

/-- C9 amended: for every checkpoint after the first, block k of the
previous-checkpoint comparison reports the difference
previous - current (the sign opposite to the estimate-minus-reference
convention) and the percentage (previous - current) / current (the
denominator is the current checkpoint, not the previous one), because
output_results passes the current value as original_value and the previous
value as new_value. -/
theorem prev_diff_reported (l : List ℚ) (k : ℕ) (hk : k + 1 < l.length) :
    (prevDiffBlocks l)[k]?
      = some (l.getD k 0 - l.getD (k + 1) 0,
          if l.getD (k + 1) 0 = 0 then none
          else some ((l.getD k 0 - l.getD (k + 1) 0) / l.getD (k + 1) 0)) := by
  rw [prevDiffBlocks, List.getElem?_map,
    List.getElem?_range' 1 1 (by omega : k < l.length - 1), Option.map_some']
  have h1 : 1 + 1 * k = k + 1 := by omega
  rw [h1, display_difference]
  have h2 : k + 1 - 1 = k := by omega
  rw [h2]

/-- C9 amended witness at checkpoints [3, 4], k = 0: the reported pair is
(3 - 4, (3 - 4) / 4). -/
theorem prev_diff_reported_app :
    ((0 : ℕ) + 1 < ([(3 : ℚ), 4]).length)
    ∧ (prevDiffBlocks [3, 4])[0]?
        = some (([(3 : ℚ), 4]).getD 0 0 - ([(3 : ℚ), 4]).getD (0 + 1) 0,
            if ([(3 : ℚ), 4]).getD (0 + 1) 0 = 0 then none
            else some ((([(3 : ℚ), 4]).getD 0 0 - ([(3 : ℚ), 4]).getD (0 + 1) 0)
              / ([(3 : ℚ), 4]).getD (0 + 1) 0)) :=
  ⟨by norm_num, prev_diff_reported [3, 4] 0 (by norm_num)⟩

/-- C10 counterexample: a call to the estimator does not leave the
process-global generator state unchanged: with pre-call state (0, 0) and
config (num_samples 1, seed 5, checkpoint_interval 1), the post-call state
is (5, 2), not (0, 0). -/
theorem rng_state_changed_cex :
    (calc_pi_serial u0 1 5 1 (RngState.mk 0 0)).map (fun res => res.2)
      ≠ some (RngState.mk 0 0) := by
  rw [calc_pi_serial, piProgram_eq normTest u0 5 (RngState.mk 0 0) 1 1
    (by norm_num) (by norm_num)]
  simp

/-- C10 amended: a valid call mutates exactly one piece of state outside
its return value, the process-global generator: afterwards it equals the
state obtained by seeding with config.seed and drawing 2 floats per
sample, independently of the pre-call state; all other state is
call-local. -/
theorem rng_state_after_call (u : ℤ → ℕ → ℚ) (seed : ℤ) (g0 : RngState)
    (n rate : ℤ) (hn : 1 ≤ n) (hr : 1 ≤ rate) :
    (calc_pi_serial u n seed rate g0).map (fun res => res.2)
      = some (RngState.mk seed (2 * n.toNat)) := by
  rw [calc_pi_serial, piProgram_eq normTest u seed g0 n rate hn hr]
  rfl

/-- C10 amended witness at config (1, seed 5, 1): post-call state (5, 2). -/
theorem rng_state_after_call_app :
    ((1 : ℤ) ≤ 1 ∧ (1 : ℤ) ≤ 1)
    ∧ (calc_pi_serial u0 1 5 1 (RngState.mk 0 0)).map (fun res => res.2)
        = some (RngState.mk 5 (2 * (1 : ℤ).toNat)) :=
  ⟨⟨by norm_num, by norm_num⟩,
   rng_state_after_call u0 5 (RngState.mk 0 0) 1 1 (by norm_num) (by norm_num)⟩
